import Mathlib

/-!
Verification of the update_engine VABC partition-writer core against its
specification (spec.md).

The repository ships only the declaration header
`payload_consumer/vabc_partition_writer.h` for the core under study; the
implementation files (`vabc_partition_writer.cc`, `cow_operation_convert.cc`,
`verified_source_fd.cc`) are not present, so the operational definitions below
are modelled from the specification text, as marked in each doc comment.

Blocks are addressed by natural numbers; the content of one block is an
abstract type `α` (a block-sized byte vector in the real system).
-/

namespace UpdateEngine

/-- An `Extent` is a contiguous run of fixed-size blocks: start block and
block count, as in the data model (spec section 3). -/
structure Extent where
  startBlock : Nat
  numBlocks : Nat
deriving DecidableEq

/-- The list of block numbers covered by one extent, in increasing order. -/
def Extent.blocks (e : Extent) : List Nat :=
  (List.range e.numBlocks).map (fun i => e.startBlock + i)

/-- Linear scan over an ordered extent list: the blocks of each extent in
list order. This is the block-to-index mapping the data model calls
semantically significant. -/
def extentsToBlocks (l : List Extent) : List Nat :=
  l.flatMap Extent.blocks

/-- Total byte length of an extent list: the sum over the list of
`num_blocks * block_size` (spec section 4.1, ApplyReplace). -/
def extentsByteLength (blockSize : Nat) (l : List Extent) : Nat :=
  (l.map (fun e => e.numBlocks * blockSize)).sum

/-- A COW log entry (spec section 3, CowEntry): a block copy, a literal
replacement carrying the block's bytes, or a zero block. -/
inductive CowEntry (α : Type) where
  | copy (srcBlock dstBlock : Nat)
  | replace (dstBlock : Nat) (data : α)
  | zero (dstBlock : Nat)
deriving DecidableEq

/-- The destination block written by a COW entry. -/
def CowEntry.dst {α : Type} : CowEntry α → Nat
  | .copy _ d => d
  | .replace d _ => d
  | .zero d => d

/-- Whether an entry is a `Copy`. -/
def CowEntry.isCopy {α : Type} : CowEntry α → Bool
  | .copy _ _ => true
  | _ => false

/-- Whether an entry is a `Replace`. -/
def CowEntry.isReplace {α : Type} : CowEntry α → Bool
  | .replace _ _ => true
  | _ => false

/-- Whether an entry is a `Zero`. -/
def CowEntry.isZero {α : Type} : CowEntry α → Bool
  | .zero _ => true
  | _ => false

/-- Modelled from the spec: the COW Operation Converter's block-level loop
(spec section 4.3; the implementation `cow_operation_convert.cc` is not in
the sources). `pairs` is the block-level mapping (i-th source block, i-th
destination block) in linear scan order, `orig` the original source
content, and `written` accumulates the destination blocks already
overwritten by earlier emitted entries. An entry whose source block has
already been overwritten is converted into a literal `Replace`
materializing the original bytes; all other entries remain `Copy`, in
original order (stability). -/
def convertBlocks {α : Type} (orig : Nat → α) :
    List (Nat × Nat) → List Nat → List (CowEntry α)
  | [], _ => []
  | (s, d) :: rest, written =>
    (if s ∈ written then CowEntry.replace d (orig s) else CowEntry.copy s d)
      :: convertBlocks orig rest (d :: written)

/-- Modelled from the spec: the source blocks the converter must read (via
the Verified Source Reader) to materialize `Replace` entries — exactly the
source blocks of the entries whose source was already overwritten (spec
section 4.1, ApplySourceCopy overlap fallback). -/
def convertReads : List (Nat × Nat) → List Nat → List Nat
  | [], _ => []
  | (s, d) :: rest, written =>
    if s ∈ written then s :: convertReads rest (d :: written)
    else convertReads rest (d :: written)

/-- Modelled from the spec: the COW Operation Converter (spec section 4.3).
Input: an ordered source extent list and an ordered destination extent
list; the implicit mapping sends the i-th source block to the i-th
destination block in linear scan order. Output: the ordered `CowEntry`
sequence whose sequential replay is safe. -/
def convertToCowOperations {α : Type} (orig : Nat → α)
    (srcExtents dstExtents : List Extent) : List (CowEntry α) :=
  convertBlocks orig
    ((extentsToBlocks srcExtents).zip (extentsToBlocks dstExtents)) []

/-- Overwrite one block of a block-indexed state. -/
def writeBlock {α : Type} (st : Nat → α) (d : Nat) (v : α) : Nat → α :=
  fun b => if b = d then v else st b

/-- Sequential replay of one COW entry over a block-indexed state:
`Copy` reads the current content of its source block, `Replace` writes its
stored bytes, `Zero` writes the zero block `zeroBlk`. -/
def applyEntry {α : Type} (zeroBlk : α) (st : Nat → α) :
    CowEntry α → Nat → α
  | .copy s d => writeBlock st d (st s)
  | .replace d v => writeBlock st d v
  | .zero d => writeBlock st d zeroBlk

/-- Sequential replay of a COW entry sequence over a block-indexed state. -/
def replayEntries {α : Type} (zeroBlk : α) (entries : List (CowEntry α))
    (st : Nat → α) : Nat → α :=
  entries.foldl (applyEntry zeroBlk) st

/-- The naive whole-buffer copy: read every source block from the original
content first, then write each destination block in mapping order. -/
def naiveCopy {α : Type} (orig : Nat → α) (pairs : List (Nat × Nat))
    (st : Nat → α) : Nat → α :=
  pairs.foldl (fun acc sd => writeBlock acc sd.2 (orig sd.1)) st

/-- The error kinds of the core (spec section 7). -/
inductive ErrorCode where
  | initError
  | lengthMismatch
  | integrityError
  | decodeError
  | sinkError
deriving DecidableEq

/-- The closed variant set of delta operation types (spec sections 3 and 9). -/
inductive OpType where
  | replaceOp
  | zeroOp
  | discardOp
  | sourceCopy
  | sourceBsdiff
  | puffDiff
deriving DecidableEq

/-- A `DeltaOperation` (spec sections 3 and 6): operation type, source
extents, destination extents and declared byte length. Immutable once
dispatched. -/
structure InstallOperation where
  type : OpType
  srcExtents : List Extent
  dstExtents : List Extent
  dataLength : Nat
deriving DecidableEq

/-- Literal `Replace` entries writing `data` across the destination blocks
in destination-extent order: the i-th destination block receives the i-th
block of `data`. -/
def replaceEntries {α : Type} (dstBlocks : List Nat) (data : List α) :
    List (CowEntry α) :=
  (dstBlocks.zip data).map (fun dv => CowEntry.replace dv.1 dv.2)

/-- Modelled from the spec: the Partition Writer's dispatch over the
operation type (spec sections 4.1 and 9; the implementation
`vabc_partition_writer.cc` is not in the sources; the header comment at
vabc_partition_writer.h:44 states that only ZERO and SOURCE_COPY are
special-cased as COW_ZERO and COW_COPY and everything else becomes
COW_REPLACE). Returns the `CowEntry` sequence handed to the snapshot sink
for one operation, together with the list of source blocks read from the
source partition while applying it. `applyPatch` is the Diff/Patch
Applicator of spec section 4.2, a pure function from source bytes and
patch bytes to reconstructed output blocks; `data` is the operation's
out-of-band payload, block-structured. -/
def performOperation {α : Type} (orig : Nat → α)
    (applyPatch : List α → List α → List α)
    (op : InstallOperation) (data : List α) :
    List (CowEntry α) × List Nat :=
  match op.type with
  | .zeroOp => ((extentsToBlocks op.dstExtents).map CowEntry.zero, [])
  | .discardOp => ((extentsToBlocks op.dstExtents).map CowEntry.zero, [])
  | .sourceCopy =>
      (convertBlocks orig
        ((extentsToBlocks op.srcExtents).zip
          (extentsToBlocks op.dstExtents)) [],
       convertReads
        ((extentsToBlocks op.srcExtents).zip
          (extentsToBlocks op.dstExtents)) [])
  | .replaceOp => (replaceEntries (extentsToBlocks op.dstExtents) data, [])
  | .sourceBsdiff =>
      (replaceEntries (extentsToBlocks op.dstExtents)
        (applyPatch ((extentsToBlocks op.srcExtents).map orig) data),
       extentsToBlocks op.srcExtents)
  | .puffDiff =>
      (replaceEntries (extentsToBlocks op.dstExtents)
        (applyPatch ((extentsToBlocks op.srcExtents).map orig) data),
       extentsToBlocks op.srcExtents)

/-- Modelled from the spec: `ApplyReplace` / `PerformReplaceOperation`
(spec section 4.1; the implementation is not in the sources). The length
check precedes any write: if `count` differs from the total byte length of
the destination extents the call fails with `LengthMismatch` and the sink
is left unchanged; otherwise the `Replace` entries are appended to the
sink in destination-extent order. -/
def performReplaceOperation {α : Type} (blockSize : Nat)
    (op : InstallOperation) (data : List α) (count : Nat)
    (sink : List (CowEntry α)) : List (CowEntry α) × Option ErrorCode :=
  if count = extentsByteLength blockSize op.dstExtents then
    (sink ++ replaceEntries (extentsToBlocks op.dstExtents) data, none)
  else
    (sink, some ErrorCode.lengthMismatch)

/-- The descriptor currently used by the Verified Source Reader: the
primary source descriptor or the error-correcting replica. -/
inductive SourceDesc where
  | primary
  | ecc
deriving DecidableEq

/-- Modelled from the spec: the Verified Source Reader's session state
(spec sections 4.4 and 9; the implementation behind `verified_source_fd_`
in vabc_partition_writer.h:91 is not in the sources): the primary
descriptor, the optional error-correcting replica descriptor, and which of
the two is current. The design note of spec section 9 models it as an
explicit two-descriptor state machine, `primary` to `ecc` on first
integrity failure, irreversible for the session. -/
structure VerifiedSourceFd (α : Type) where
  primaryFd : Nat → α
  eccFd : Option (Nat → α)
  current : SourceDesc

/-- The descriptor the reader currently reads through. -/
def VerifiedSourceFd.currentFd {α : Type} (s : VerifiedSourceFd α) :
    Nat → α :=
  match s.current, s.eccFd with
  | .ecc, some f => f
  | _, _ => s.primaryFd

/-- Raw read of one extent from a descriptor. -/
def readRange {α : Type} (fd : Nat → α) (e : Extent) : List α :=
  e.blocks.map fd

/-- Modelled from the spec: `ReadVerified` (spec section 4.4; the
implementation is not in the sources). Reads the extent through the
current descriptor and checks its digest against the caller-supplied
expected digest. On mismatch, if the error-correcting replica is
configured and not yet current, the reader switches to it for the rest of
the session and retries exactly once; if that read also fails
verification the call returns `IntegrityError`. -/
def readVerified {α : Type} (digest : List α → Nat) (expected : Nat)
    (s : VerifiedSourceFd α) (e : Extent) :
    VerifiedSourceFd α × Except ErrorCode (List α) :=
  let data := readRange s.currentFd e
  if digest data = expected then
    (s, Except.ok data)
  else
    match s.current, s.eccFd with
    | .primary, some ecc =>
        let s' : VerifiedSourceFd α :=
          { primaryFd := s.primaryFd, eccFd := s.eccFd
            current := SourceDesc.ecc }
        let retry := readRange ecc e
        if digest retry = expected then (s', Except.ok retry)
        else (s', Except.error ErrorCode.integrityError)
    | _, _ => (s, Except.error ErrorCode.integrityError)

/-- The reader state after a sequence of verified reads, each with its own
extent and expected digest. -/
def readVerifiedMany {α : Type} (digest : List α → Nat)
    (s : VerifiedSourceFd α) (reads : List (Extent × Nat)) :
    VerifiedSourceFd α :=
  reads.foldl (fun st r => (readVerified digest r.2 st r.1).1) s

/-- The `CowEntry` sequence one operation (with its out-of-band payload)
hands to the snapshot sink. -/
def entriesOf {α : Type} (orig : Nat → α)
    (applyPatch : List α → List α → List α)
    (od : InstallOperation × List α) : List (CowEntry α) :=
  (performOperation orig applyPatch od.1 od.2).1

/-- An observable event of the apply-then-checkpoint loop: one `CowEntry`
handed to the snapshot sink, or the persisted checkpoint advanced to a new
next-operation index. -/
inductive Event (α : Type) where
  | handToSink (e : CowEntry α)
  | advanceCheckpoint (n : Nat)
deriving DecidableEq

/-- Modelled from the spec: the event trace of the Partition Writer's
apply-then-checkpoint loop starting at operation index `i0` (spec
sections 4.1 and 5; `CheckpointUpdateProgress` in
vabc_partition_writer.h:66 is declared but its implementation is not in
the sources). For each operation, first every produced `CowEntry` is
handed to the sink, then the checkpoint is advanced past the operation;
reachable states of the loop are the prefixes of this trace. -/
def runTrace {α : Type} (orig : Nat → α)
    (applyPatch : List α → List α → List α) :
    List (InstallOperation × List α) → Nat → List (Event α)
  | [], _ => []
  | od :: rest, i0 =>
      (entriesOf orig applyPatch od).map Event.handToSink
        ++ Event.advanceCheckpoint (i0 + 1)
        :: runTrace orig applyPatch rest (i0 + 1)

/-- The entries handed to the sink during a trace fragment, in order. -/
def sinkOf {α : Type} : List (Event α) → List (CowEntry α)
  | [] => []
  | .handToSink e :: r => e :: sinkOf r
  | .advanceCheckpoint _ :: r => sinkOf r

/-- The persisted checkpoint after a trace fragment, starting from `i0`:
the value of the last checkpoint advance, or `i0` if none occurred. -/
def ckptOf {α : Type} (i0 : Nat) : List (Event α) → Nat
  | [] => i0
  | .handToSink _ :: r => ckptOf i0 r
  | .advanceCheckpoint n :: r => ckptOf n r

/-- Modelled from the spec: the entries appended to the snapshot sink by
running the operation sequence from index `i` onward, as after `Init` with
`next_op_index = i` (spec section 4.1: operations before the checkpoint
are skipped). -/
def runFrom {α : Type} (orig : Nat → α)
    (applyPatch : List α → List α → List α)
    (ops : List (InstallOperation × List α)) (i : Nat) :
    List (CowEntry α) :=
  (ops.drop i).flatMap (entriesOf orig applyPatch)

/-- The merge-relevant view of an append-only snapshot log: for each
destination block, the authoritative (last appended) entry writing it, if
any. Two logs are equivalent for merge purposes when these views agree on
every block (spec sections 4.1 and 6: the sink is idempotently
append-only, re-emitted entries harmlessly supersede earlier ones). -/
def mergeView {α : Type} (log : List (CowEntry α)) (b : Nat) :
    Option (CowEntry α) :=
  log.reverse.find? (fun e => e.dst == b)

/-! ### Lemmas about the COW Operation Converter -/

/-- Any `Copy` emitted by the converter loop has a source block that is
neither in the already-overwritten accumulator nor the destination of any
entry emitted before it. -/
theorem convertBlocks_split {α : Type} (orig : Nat → α) :
    ∀ (pairs : List (Nat × Nat)) (written : List Nat)
      (pfx rest : List (CowEntry α)) (s d : Nat),
      convertBlocks orig pairs written = pfx ++ CowEntry.copy s d :: rest →
      s ∉ written ∧ ∀ e ∈ pfx, e.dst ≠ s := by
  intro pairs
  induction pairs with
  | nil =>
      intro written pfx rest s d h
      simp [convertBlocks] at h
  | cons sd ps ih =>
      intro written pfx rest s d h
      obtain ⟨s0, d0⟩ := sd
      rw [convertBlocks] at h
      cases pfx with
      | nil =>
          simp only [List.nil_append, List.cons.injEq] at h
          by_cases hm : s0 ∈ written
          · rw [if_pos hm] at h
            exact absurd h.1 (by simp)
          · rw [if_neg hm] at h
            obtain ⟨heq, -⟩ := h
            obtain ⟨hs, hd⟩ := CowEntry.copy.inj heq
            subst hs
            exact ⟨hm, by simp⟩
      | cons e0 pfx' =>
          simp only [List.cons_append, List.cons.injEq] at h
          obtain ⟨he0, htail⟩ := h
          obtain ⟨hsw, hpfx⟩ := ih (d0 :: written) pfx' rest s d htail
          refine ⟨fun hw => hsw (List.mem_cons_of_mem _ hw), ?_⟩
          intro e he
          rcases List.mem_cons.1 he with rfl | he'
          · have hdst : e.dst = d0 := by
              rw [← he0]
              by_cases hm : s0 ∈ written
              · rw [if_pos hm]; rfl
              · rw [if_neg hm]; rfl
            rw [hdst]
            intro hds
            exact hsw (hds ▸ List.mem_cons_self _ _)
          · exact hpfx e he'

/-- Claim C1: for every source and destination extent list of equal total
block count, every prefix of the `CowEntry` sequence emitted by the COW
Operation Converter satisfies: no `Copy` entry's source block equals the
destination block of any earlier entry in the sequence — a `Copy` never
reads a block already overwritten by an earlier emitted entry. -/
theorem converter_copy_never_reads_overwritten {α : Type} (orig : Nat → α)
    (srcExtents dstExtents : List Extent)
    (hlen : (extentsToBlocks srcExtents).length
      = (extentsToBlocks dstExtents).length)
    (pfx rest : List (CowEntry α)) (s d : Nat)
    (hsplit : convertToCowOperations orig srcExtents dstExtents
      = pfx ++ CowEntry.copy s d :: rest) :
    ∀ e ∈ pfx, e.dst ≠ s :=
  (convertBlocks_split orig _ [] pfx rest s d hsplit).2

/-- Replay of a cons: the head entry is applied first. -/
theorem replayEntries_cons {α : Type} (zeroBlk : α) (e : CowEntry α)
    (l : List (CowEntry α)) (st : Nat → α) :
    replayEntries zeroBlk (e :: l) st
      = replayEntries zeroBlk l (applyEntry zeroBlk st e) := rfl

/-- Naive copy of a cons: the head mapping is written first. -/
theorem naiveCopy_cons {α : Type} (orig : Nat → α) (sd : Nat × Nat)
    (ps : List (Nat × Nat)) (st : Nat → α) :
    naiveCopy orig (sd :: ps) st
      = naiveCopy orig ps (writeBlock st sd.2 (orig sd.1)) := rfl

/-- Writing one block leaves every other block unchanged. -/
theorem writeBlock_ne {α : Type} (st : Nat → α) (d : Nat) (v : α) (b : Nat)
    (h : b ≠ d) : writeBlock st d v b = st b := by
  simp [writeBlock, if_neg h]

/-- Replaying the converter's output over any state that still holds the
original content on every not-yet-overwritten block produces the same
final state as the naive whole-buffer copy. -/
theorem convertBlocks_replay {α : Type} (zeroBlk : α) (orig : Nat → α) :
    ∀ (pairs : List (Nat × Nat)) (written : List Nat) (st : Nat → α),
      (∀ b, b ∉ written → st b = orig b) →
      replayEntries zeroBlk (convertBlocks orig pairs written) st
        = naiveCopy orig pairs st := by
  intro pairs
  induction pairs with
  | nil => intro written st _; rfl
  | cons sd ps ih =>
      intro written st h
      obtain ⟨s, d⟩ := sd
      rw [convertBlocks, replayEntries_cons, naiveCopy_cons]
      have hnext : ∀ b, b ∉ d :: written →
          writeBlock st d (orig s) b = orig b := by
        intro b hb
        have hbd : b ≠ d := fun hbd => hb (hbd ▸ List.mem_cons_self _ _)
        rw [writeBlock_ne st d _ b hbd]
        exact h b (fun hbw => hb (List.mem_cons_of_mem _ hbw))
      by_cases hm : s ∈ written
      · rw [if_pos hm]
        have happ : applyEntry zeroBlk st (CowEntry.replace d (orig s))
            = writeBlock st d (orig s) := rfl
        rw [happ]
        exact ih (d :: written) _ hnext
      · rw [if_neg hm]
        have happ : applyEntry zeroBlk st (CowEntry.copy s d)
            = writeBlock st d (st s) := rfl
        rw [happ, h s hm]
        exact ih (d :: written) _ hnext

/-- Claim C2: for every source-copy mapping, including self-overlapping
ones, sequentially replaying the `CowEntry` sequence emitted by the COW
Operation Converter over the source state produces exactly the final
target content of a naive whole-buffer copy that reads all source blocks
first and then writes all destination blocks. -/
theorem converter_replay_eq_naiveCopy {α : Type} (zeroBlk : α)
    (orig : Nat → α) (srcExtents dstExtents : List Extent)
    (hlen : (extentsToBlocks srcExtents).length
      = (extentsToBlocks dstExtents).length) :
    replayEntries zeroBlk (convertToCowOperations orig srcExtents dstExtents)
        orig
      = naiveCopy orig
          ((extentsToBlocks srcExtents).zip (extentsToBlocks dstExtents))
          orig :=
  convertBlocks_replay zeroBlk orig _ [] orig (fun _ _ => rfl)

/-- When no source block of the mapping is ever overwritten, the converter
emits exactly the mapping's `Copy` entries in order. -/
theorem convertBlocks_all_copies {α : Type} (orig : Nat → α) :
    ∀ (pairs : List (Nat × Nat)) (written : List Nat),
      (∀ sd ∈ pairs, sd.1 ∉ written) →
      (∀ sd ∈ pairs, sd.1 ∉ pairs.map Prod.snd) →
      convertBlocks orig pairs written
        = pairs.map (fun sd => CowEntry.copy sd.1 sd.2) := by
  intro pairs
  induction pairs with
  | nil => intro written _ _; rfl
  | cons sd ps ih =>
      intro written h1 h2
      obtain ⟨s, d⟩ := sd
      rw [convertBlocks]
      rw [if_neg (h1 (s, d) (List.mem_cons_self _ _))]
      simp only [List.map_cons]
      congr 1
      apply ih
      · intro sd' hsd' hw
        rcases List.mem_cons.1 hw with hdw | hww
        · exact h2 sd' (List.mem_cons_of_mem _ hsd') (by rw [hdw]; simp)
        · exact h1 sd' (List.mem_cons_of_mem _ hsd') hww
      · intro sd' hsd' hmem
        refine h2 sd' (List.mem_cons_of_mem _ hsd') ?_
        simp only [List.map_cons]
        exact List.mem_cons_of_mem _ hmem

/-- Claim C3: for source and destination extent lists of equal total block
count whose block sets do not overlap, the COW Operation Converter emits
exactly one `CowEntry` per mapped block — the `Copy` entries of the
linear-scan mapping, in mapping order — and the emitted sequence length
equals the total block count. -/
theorem converter_disjoint_one_copy_per_block {α : Type} (orig : Nat → α)
    (srcExtents dstExtents : List Extent)
    (hlen : (extentsToBlocks srcExtents).length
      = (extentsToBlocks dstExtents).length)
    (hdisj : ∀ b ∈ extentsToBlocks srcExtents,
      b ∉ extentsToBlocks dstExtents) :
    convertToCowOperations orig srcExtents dstExtents
        = ((extentsToBlocks srcExtents).zip
            (extentsToBlocks dstExtents)).map
            (fun sd => CowEntry.copy sd.1 sd.2)
      ∧ (convertToCowOperations orig srcExtents dstExtents).length
        = (extentsToBlocks dstExtents).length := by
  have hmain : convertToCowOperations orig srcExtents dstExtents
      = ((extentsToBlocks srcExtents).zip (extentsToBlocks dstExtents)).map
          (fun sd => CowEntry.copy sd.1 sd.2) := by
    apply convertBlocks_all_copies
    · intro sd _ hw
      exact (List.not_mem_nil sd.1) hw
    · intro sd hsd hmem
      obtain ⟨s, d⟩ := sd
      obtain ⟨x, hx, hx2⟩ := List.mem_map.1 hmem
      obtain ⟨xa, xb⟩ := x
      have hxb : xb ∈ extentsToBlocks dstExtents := (List.of_mem_zip hx).2
      have hs : s ∈ extentsToBlocks srcExtents := (List.of_mem_zip hsd).1
      have hx2' : xb = s := hx2
      exact hdisj s hs (hx2' ▸ hxb)
  refine ⟨hmain, ?_⟩
  rw [hmain, List.length_map, List.length_zip, hlen, min_self]

/-! ### Lemmas about the Partition Writer dispatch -/

/-- The converter loop emits only `Copy` and `Replace` entries, never
`Zero`. -/
theorem mem_convertBlocks_kind {α : Type} (orig : Nat → α) :
    ∀ (pairs : List (Nat × Nat)) (written : List Nat) (e : CowEntry α),
      e ∈ convertBlocks orig pairs written →
      e.isCopy = true ∨ e.isReplace = true := by
  intro pairs
  induction pairs with
  | nil => intro written e h; simp [convertBlocks] at h
  | cons sd ps ih =>
      intro written e h
      obtain ⟨s, d⟩ := sd
      rw [convertBlocks] at h
      rcases List.mem_cons.1 h with rfl | h'
      · by_cases hm : s ∈ written
        · rw [if_pos hm]; exact Or.inr rfl
        · rw [if_neg hm]; exact Or.inl rfl
      · exact ih _ e h'

/-- Claim C4: the Partition Writer's dispatch produces `Zero` entries only
for the Zero/Discard variants and `Copy` entries only for SourceCopy;
every other variant (Replace, SourceBsdiff, PuffDiff) results exclusively
in `Replace` entries, so diff-derived output is never committed as a
`Copy`. -/
theorem dispatch_entry_kinds {α : Type} (orig : Nat → α)
    (applyPatch : List α → List α → List α)
    (op : InstallOperation) (data : List α) (e : CowEntry α)
    (he : e ∈ (performOperation orig applyPatch op data).1) :
    (e.isZero = true →
      op.type = OpType.zeroOp ∨ op.type = OpType.discardOp)
    ∧ (e.isCopy = true → op.type = OpType.sourceCopy)
    ∧ ((op.type = OpType.replaceOp ∨ op.type = OpType.sourceBsdiff
        ∨ op.type = OpType.puffDiff) → e.isReplace = true) := by
  obtain ⟨ty, se, de, dl⟩ := op
  cases ty with
  | zeroOp =>
      simp only [performOperation] at he
      obtain ⟨b, _, rfl⟩ := List.mem_map.1 he
      refine ⟨fun _ => Or.inl rfl,
        fun hc => by simp [CowEntry.isCopy] at hc, fun hr => ?_⟩
      rcases hr with h | h | h <;> simp at h
  | discardOp =>
      simp only [performOperation] at he
      obtain ⟨b, _, rfl⟩ := List.mem_map.1 he
      refine ⟨fun _ => Or.inr rfl,
        fun hc => by simp [CowEntry.isCopy] at hc, fun hr => ?_⟩
      rcases hr with h | h | h <;> simp at h
  | sourceCopy =>
      simp only [performOperation] at he
      have hk := mem_convertBlocks_kind orig _ [] e he
      refine ⟨fun hz => ?_, fun _ => rfl, fun hr => ?_⟩
      · exfalso
        cases e <;>
          simp [CowEntry.isZero, CowEntry.isCopy, CowEntry.isReplace]
            at hz hk
      · rcases hr with h | h | h <;> simp at h
  | replaceOp =>
      simp only [performOperation, replaceEntries] at he
      obtain ⟨dv, _, rfl⟩ := List.mem_map.1 he
      exact ⟨fun hz => by simp [CowEntry.isZero] at hz,
        fun hc => by simp [CowEntry.isCopy] at hc, fun _ => rfl⟩
  | sourceBsdiff =>
      simp only [performOperation, replaceEntries] at he
      obtain ⟨dv, _, rfl⟩ := List.mem_map.1 he
      exact ⟨fun hz => by simp [CowEntry.isZero] at hz,
        fun hc => by simp [CowEntry.isCopy] at hc, fun _ => rfl⟩
  | puffDiff =>
      simp only [performOperation, replaceEntries] at he
      obtain ⟨dv, _, rfl⟩ := List.mem_map.1 he
      exact ⟨fun hz => by simp [CowEntry.isZero] at hz,
        fun hc => by simp [CowEntry.isCopy] at hc, fun _ => rfl⟩

/-- Claim C5: for every Replace operation whose declared byte count does
not equal the total byte length of the destination extents,
`PerformReplaceOperation` fails with `LengthMismatch` and the snapshot
sink is left unchanged — no write is issued before the failure. -/
theorem replace_length_mismatch_fails {α : Type} (blockSize : Nat)
    (op : InstallOperation) (data : List α) (count : Nat)
    (sink : List (CowEntry α))
    (h : count ≠ extentsByteLength blockSize op.dstExtents) :
    performReplaceOperation blockSize op data count sink
      = (sink, some ErrorCode.lengthMismatch) := by
  rw [performReplaceOperation, if_neg h]

/-- One extent covers exactly `numBlocks` blocks. -/
theorem Extent.length_blocks (e : Extent) :
    e.blocks.length = e.numBlocks := by
  rw [Extent.blocks, List.length_map, List.length_range]

/-- The linear scan of an extent list has one block per counted block. -/
theorem length_extentsToBlocks (l : List Extent) :
    (extentsToBlocks l).length = (l.map Extent.numBlocks).sum := by
  rw [extentsToBlocks, List.length_flatMap]
  congr 1
  apply List.map_congr_left
  intro e _
  exact Extent.length_blocks e

/-- Claim C6: for every Zero or Discard operation, the Partition Writer
emits exactly one `Zero` entry per destination block — an extent of count
n yields exactly n zero entries — and performs zero reads of the source
partition. -/
theorem zero_discard_one_zero_per_block {α : Type} (orig : Nat → α)
    (applyPatch : List α → List α → List α) (op : InstallOperation)
    (data : List α)
    (h : op.type = OpType.zeroOp ∨ op.type = OpType.discardOp) :
    performOperation orig applyPatch op data
        = ((extentsToBlocks op.dstExtents).map CowEntry.zero,
           ([] : List Nat))
      ∧ ((performOperation orig applyPatch op data).1).length
        = (op.dstExtents.map Extent.numBlocks).sum := by
  have hmain : performOperation orig applyPatch op data
      = ((extentsToBlocks op.dstExtents).map CowEntry.zero, []) := by
    rcases h with h | h <;> simp [performOperation, h]
  refine ⟨hmain, ?_⟩
  rw [hmain]
  simp only [List.length_map]
  exact length_extentsToBlocks op.dstExtents

/-! ### Lemmas about the Verified Source Reader -/

/-- One verified read never moves the reader back from the
error-correcting replica to the primary descriptor. -/
theorem readVerified_stays_on_ecc {α : Type} (digest : List α → Nat)
    (expected : Nat) (s : VerifiedSourceFd α) (e : Extent)
    (h : s.current = SourceDesc.ecc) :
    (readVerified digest expected s e).1.current = SourceDesc.ecc := by
  rw [readVerified]
  by_cases hd : digest (readRange s.currentFd e) = expected
  · rw [if_pos hd]; exact h
  · rw [if_neg hd]
    rw [h]
    cases s.eccFd <;> exact h

/-- Claim C7: the Verified Source Reader is a two-state machine over the
session. On a mismatch with an error-correcting replica configured, it
switches its underlying descriptor to the replica and retries the read
exactly once, returning the replica's bytes if they verify and
`IntegrityError` otherwise; and once on the replica it remains there for
every subsequent read of the session, never reverting to the primary
descriptor. -/
theorem verified_reader_two_state_machine {α : Type}
    (digest : List α → Nat) (expected : Nat) (s : VerifiedSourceFd α)
    (e : Extent) (eccFd : Nat → α) (reads : List (Extent × Nat)) :
    (s.current = SourceDesc.ecc →
      (readVerifiedMany digest s reads).current = SourceDesc.ecc)
    ∧ (s.current = SourceDesc.primary → s.eccFd = some eccFd →
        digest (readRange s.primaryFd e) ≠ expected →
        (readVerified digest expected s e).1.current = SourceDesc.ecc
        ∧ (readVerified digest expected s e).2
          = (if digest (readRange eccFd e) = expected then
              Except.ok (readRange eccFd e)
             else Except.error ErrorCode.integrityError)) := by
  constructor
  · intro h
    induction reads generalizing s with
    | nil => exact h
    | cons r rs ih =>
        rw [readVerifiedMany, List.foldl_cons]
        exact ih _ (readVerified_stays_on_ecc digest r.2 s r.1 h)
  · intro hcur hecc hmis
    have hfd : s.currentFd = s.primaryFd := by
      rw [VerifiedSourceFd.currentFd, hcur]
    rw [readVerified, hfd, if_neg hmis, hcur, hecc]
    dsimp only
    by_cases hd : digest (readRange eccFd e) = expected
    · rw [if_pos hd, if_pos hd]
      exact ⟨rfl, rfl⟩
    · rw [if_neg hd, if_neg hd]
      exact ⟨rfl, rfl⟩

/-! ### Lemmas about the apply-then-checkpoint loop -/

/-- The sink contents of a concatenated trace. -/
theorem sinkOf_append {α : Type} :
    ∀ (t1 t2 : List (Event α)),
      sinkOf (t1 ++ t2) = sinkOf t1 ++ sinkOf t2
  | [], _ => rfl
  | Event.handToSink e :: t, t2 =>
      congrArg (fun l => e :: l) (sinkOf_append t t2)
  | Event.advanceCheckpoint _ :: t, t2 => sinkOf_append t t2

/-- A pure hand-to-sink fragment contributes exactly its entries. -/
theorem sinkOf_map_handToSink {α : Type} :
    ∀ (l : List (CowEntry α)), sinkOf (l.map Event.handToSink) = l
  | [] => rfl
  | e :: t => congrArg (fun l => e :: l) (sinkOf_map_handToSink t)

/-- The checkpoint after a concatenated trace. -/
theorem ckptOf_append {α : Type} :
    ∀ (t1 t2 : List (Event α)) (i0 : Nat),
      ckptOf i0 (t1 ++ t2) = ckptOf (ckptOf i0 t1) t2
  | [], _, _ => rfl
  | Event.handToSink _ :: t, t2, i0 => ckptOf_append t t2 i0
  | Event.advanceCheckpoint n :: t, t2, _ => ckptOf_append t t2 n

/-- A pure hand-to-sink fragment does not move the checkpoint. -/
theorem ckptOf_map_handToSink {α : Type} :
    ∀ (l : List (CowEntry α)) (i0 : Nat),
      ckptOf i0 (l.map Event.handToSink) = i0
  | [], _ => rfl
  | _ :: t, i0 => ckptOf_map_handToSink t i0

/-- A checkpoint advance contributes nothing to the sink. -/
theorem sinkOf_cons_advance {α : Type} (n : Nat) (t : List (Event α)) :
    sinkOf (Event.advanceCheckpoint n :: t) = sinkOf t := rfl

/-- A checkpoint advance resets the running checkpoint value. -/
theorem ckptOf_cons_advance {α : Type} (i0 n : Nat) (t : List (Event α)) :
    ckptOf i0 (Event.advanceCheckpoint n :: t) = ckptOf n t := rfl

/-- Along any prefix of the loop's trace the checkpoint never falls below
its starting value. -/
theorem ckptOf_runTrace_take_ge {α : Type} (orig : Nat → α)
    (applyPatch : List α → List α → List α) :
    ∀ (ops : List (InstallOperation × List α)) (i0 k : Nat),
      i0 ≤ ckptOf i0 ((runTrace orig applyPatch ops i0).take k) := by
  intro ops
  induction ops with
  | nil =>
      intro i0 k
      simp [runTrace, ckptOf]
  | cons od rest ih =>
      intro i0 k
      rw [runTrace, List.take_append_eq_append_take, ckptOf_append,
        ← List.map_take, ckptOf_map_handToSink, List.length_map]
      rcases le_or_lt k (entriesOf orig applyPatch od).length
        with hkm | hkm
      · have hk0 : k - (entriesOf orig applyPatch od).length = 0 := by omega
        rw [hk0]
        simp [ckptOf]
      · have hk1 : k - (entriesOf orig applyPatch od).length
            = (k - (entriesOf orig applyPatch od).length - 1) + 1 := by
          omega
        rw [hk1, List.take_succ_cons, ckptOf_cons_advance]
        exact Nat.le_trans (Nat.le_succ i0) (ih (i0 + 1) _)

/-- Claim C8: in every reachable state of the Partition Writer's
apply-then-checkpoint loop (every prefix of its event trace), the entry
sequences of all operations covered by the persisted checkpoint have
already been handed to the snapshot sink, in order — the checkpoint never
runs ahead of the entries handed to the sink. -/
theorem checkpoint_never_ahead {α : Type} (orig : Nat → α)
    (applyPatch : List α → List α → List α) :
    ∀ (ops : List (InstallOperation × List α)) (i0 k : Nat),
      ((ops.take
          (ckptOf i0 ((runTrace orig applyPatch ops i0).take k) - i0)
        ).flatMap (entriesOf orig applyPatch))
        <+: sinkOf ((runTrace orig applyPatch ops i0).take k) := by
  intro ops
  induction ops with
  | nil =>
      intro i0 k
      simp [runTrace, ckptOf, sinkOf]
  | cons od rest ih =>
      intro i0 k
      rw [runTrace, List.take_append_eq_append_take, sinkOf_append,
        ckptOf_append, ← List.map_take, sinkOf_map_handToSink,
        ckptOf_map_handToSink, List.length_map]
      rcases le_or_lt k (entriesOf orig applyPatch od).length
        with hkm | hkm
      · have hk0 : k - (entriesOf orig applyPatch od).length = 0 := by omega
        rw [hk0]
        simp only [List.take_zero, ckptOf, Nat.sub_self, List.flatMap_nil]
        exact List.nil_prefix
      · have hk1 : k - (entriesOf orig applyPatch od).length
            = (k - (entriesOf orig applyPatch od).length - 1) + 1 := by
          omega
        rw [hk1, List.take_succ_cons, ckptOf_cons_advance,
          sinkOf_cons_advance, List.take_of_length_le (Nat.le_of_lt hkm)]
        set k' := k - (entriesOf orig applyPatch od).length - 1 with hk'
        have hge : i0 + 1 ≤ ckptOf (i0 + 1)
            ((runTrace orig applyPatch rest (i0 + 1)).take k') :=
          ckptOf_runTrace_take_ge orig applyPatch rest (i0 + 1) k'
        set c := ckptOf (i0 + 1)
          ((runTrace orig applyPatch rest (i0 + 1)).take k') with hc
        have hsub : c - i0 = (c - (i0 + 1)) + 1 := by omega
        rw [hsub, List.take_succ_cons, List.flatMap_cons]
        exact (List.prefix_append_right_inj
          (entriesOf orig applyPatch od)).2 (ih (i0 + 1) k')

/-! ### Lemmas about resume and merge equivalence -/

/-- Inserting entries that all reappear later in the log does not change
which entry is authoritative (last) for any block. -/
theorem find?_reverse_middle_subset {β : Type} (q : β → Bool)
    (A P E R : List β) (hPE : ∀ x ∈ P, x ∈ E) :
    ((A ++ (P ++ (E ++ R))).reverse).find? q
      = ((A ++ (E ++ R)).reverse).find? q := by
  simp only [List.reverse_append, List.find?_append, Option.or_assoc]
  rcases hE : E.reverse.find? q with _ | v
  · have hP : P.reverse.find? q = none := by
      rw [List.find?_eq_none] at hE ⊢
      intro x hx
      exact hE x (List.mem_reverse.2 (hPE x (List.mem_reverse.1 hx)))
    rw [hP]
    simp
  · rw [Option.or_some, Option.or_some]

/-- The uninterrupted run splits at any operation index into the already
applied part and the rest. -/
theorem runFrom_zero_decomp {α : Type} (orig : Nat → α)
    (applyPatch : List α → List α → List α)
    (ops : List (InstallOperation × List α)) (i : Nat) :
    runFrom orig applyPatch ops 0
      = (ops.take i).flatMap (entriesOf orig applyPatch)
        ++ runFrom orig applyPatch ops i := by
  rw [runFrom, runFrom, List.drop_zero]
  conv_lhs => rw [← List.take_append_drop i ops]
  rw [List.flatMap_append]

/-- Running from index `i` first re-emits operation `i`'s entries. -/
theorem runFrom_succ_decomp {α : Type} (orig : Nat → α)
    (applyPatch : List α → List α → List α)
    (ops : List (InstallOperation × List α)) (i : Nat)
    (hi : i < ops.length) :
    runFrom orig applyPatch ops i
      = entriesOf orig applyPatch (ops.get ⟨i, hi⟩)
        ++ runFrom orig applyPatch ops (i + 1) := by
  rw [runFrom, List.drop_eq_getElem_cons hi, List.flatMap_cons, runFrom]
  rfl

/-- Claim C9: resume is idempotent. For every operation sequence, every
checkpoint index `i`, and every partially emitted entry sequence of
operation `i` already in the sink before a crash, re-running `Init` with
`next_op_index = i` and re-applying the operations from index `i` onward
produces a snapshot log whose merge view agrees on every block with the
log of applying the whole sequence once without interruption. -/
theorem resume_idempotent {α : Type} (orig : Nat → α)
    (applyPatch : List α → List α → List α)
    (ops : List (InstallOperation × List α)) (i : Nat)
    (hi : i < ops.length) (pfxEmitted : List (CowEntry α))
    (hP : pfxEmitted <+: entriesOf orig applyPatch (ops.get ⟨i, hi⟩))
    (b : Nat) :
    mergeView ((ops.take i).flatMap (entriesOf orig applyPatch)
        ++ (pfxEmitted ++ runFrom orig applyPatch ops i)) b
      = mergeView (runFrom orig applyPatch ops 0) b := by
  rw [runFrom_zero_decomp orig applyPatch ops i,
    runFrom_succ_decomp orig applyPatch ops i hi, mergeView, mergeView]
  exact find?_reverse_middle_subset _ _ _ _ _ (fun x hx => hP.subset hx)

/-! ### Concrete sample data for the witness instances -/

/-- Sample original source content: block `b` holds `b + 100`. -/
def origSample : Nat → Nat := fun b => b + 100

/-- Sample patch applicator: returns the patch payload as the output. -/
def patchSample : List Nat → List Nat → List Nat := fun _ patch => patch

/-- Sample primary descriptor: every block reads as 1. -/
def fdPrimarySample : Nat → Nat := fun _ => 1

/-- Sample error-correcting replica descriptor: every block reads as 2. -/
def fdEccSample : Nat → Nat := fun _ => 2

/-- Sample digest: the sum of the read bytes. -/
def digestSample : List Nat → Nat := fun l => l.sum

/-- Sample one-operation plan: a self-overlapping source copy of block 0
onto block 1. -/
def opsSample : List (InstallOperation × List Nat) :=
  [(InstallOperation.mk OpType.sourceCopy [Extent.mk 0 1] [Extent.mk 1 1] 0,
    [])]

/-! ### Witness instances -/

/-- Witness for C1 at a concrete two-block copy. -/
theorem converter_copy_never_reads_overwritten_witness :
    ((extentsToBlocks [Extent.mk 10 1, Extent.mk 20 1]).length
        = (extentsToBlocks [Extent.mk 0 2]).length)
    ∧ (convertToCowOperations origSample [Extent.mk 10 1, Extent.mk 20 1]
          [Extent.mk 0 2]
        = [CowEntry.copy 10 0]
            ++ CowEntry.copy 20 1 :: ([] : List (CowEntry Nat)))
    ∧ (CowEntry.copy 10 0 : CowEntry Nat).dst ≠ 20 :=
  ⟨by decide, by decide,
    converter_copy_never_reads_overwritten origSample
      [Extent.mk 10 1, Extent.mk 20 1] [Extent.mk 0 2] (by decide)
      [CowEntry.copy 10 0] [] 20 1 (by decide)
      (CowEntry.copy 10 0) (List.mem_singleton.2 rfl)⟩

/-- Witness for C2 at the spec's rotation example: source blocks 5, 0, 1
onto destination blocks 0, 1, 2. -/
theorem converter_replay_eq_naiveCopy_witness :
    ((extentsToBlocks [Extent.mk 5 1, Extent.mk 0 2]).length
        = (extentsToBlocks [Extent.mk 0 3]).length)
    ∧ replayEntries 0 (convertToCowOperations origSample
          [Extent.mk 5 1, Extent.mk 0 2] [Extent.mk 0 3]) origSample
        = naiveCopy origSample
            ((extentsToBlocks [Extent.mk 5 1, Extent.mk 0 2]).zip
              (extentsToBlocks [Extent.mk 0 3])) origSample :=
  ⟨by decide,
    converter_replay_eq_naiveCopy 0 origSample
      [Extent.mk 5 1, Extent.mk 0 2] [Extent.mk 0 3] (by decide)⟩

/-- Witness for C3 at a concrete disjoint two-block copy. -/
theorem converter_disjoint_one_copy_per_block_witness :
    (convertToCowOperations origSample [Extent.mk 10 1, Extent.mk 20 1]
        [Extent.mk 0 2]
      = [CowEntry.copy 10 0, CowEntry.copy 20 1])
    ∧ (convertToCowOperations origSample [Extent.mk 10 1, Extent.mk 20 1]
        [Extent.mk 0 2]).length
      = (extentsToBlocks [Extent.mk 0 2]).length :=
  ⟨(converter_disjoint_one_copy_per_block origSample
      [Extent.mk 10 1, Extent.mk 20 1] [Extent.mk 0 2]
      (by decide) (by decide)).1.trans (by decide),
   (converter_disjoint_one_copy_per_block origSample
      [Extent.mk 10 1, Extent.mk 20 1] [Extent.mk 0 2]
      (by decide) (by decide)).2⟩

/-- Witness for C4 at a concrete bsdiff operation whose single emitted
entry is a `Replace`. -/
theorem dispatch_entry_kinds_witness :
    (CowEntry.replace 5 7 : CowEntry Nat).isReplace = true :=
  (dispatch_entry_kinds origSample patchSample
      (InstallOperation.mk OpType.sourceBsdiff [Extent.mk 0 1]
        [Extent.mk 5 1] 4)
      [7] (CowEntry.replace 5 7) (by decide)).2.2 (Or.inr (Or.inl rfl))

/-- Witness for C5 at a concrete Replace operation with a wrong byte
count. -/
theorem replace_length_mismatch_fails_witness :
    ((5 : Nat) ≠ extentsByteLength 4096
        (InstallOperation.mk OpType.replaceOp [] [Extent.mk 0 2]
          5).dstExtents)
    ∧ performReplaceOperation 4096
        (InstallOperation.mk OpType.replaceOp [] [Extent.mk 0 2] 5)
        [7] 5 [CowEntry.zero 9]
      = ([CowEntry.zero 9], some ErrorCode.lengthMismatch) :=
  ⟨by decide,
    replace_length_mismatch_fails 4096
      (InstallOperation.mk OpType.replaceOp [] [Extent.mk 0 2] 5)
      [7] 5 [CowEntry.zero 9] (by decide)⟩

/-- Witness for C6 at the spec's example: a Zero operation over extent
(block 10, count 4). -/
theorem zero_discard_one_zero_per_block_witness :
    performOperation origSample patchSample
        (InstallOperation.mk OpType.zeroOp [] [Extent.mk 10 4] 0) []
      = ((extentsToBlocks (InstallOperation.mk OpType.zeroOp []
          [Extent.mk 10 4] 0).dstExtents).map CowEntry.zero, ([] : List Nat))
    ∧ ((performOperation origSample patchSample
        (InstallOperation.mk OpType.zeroOp [] [Extent.mk 10 4] 0) []).1).length
      = ((InstallOperation.mk OpType.zeroOp [] [Extent.mk 10 4]
          0).dstExtents.map Extent.numBlocks).sum :=
  zero_discard_one_zero_per_block origSample patchSample
    (InstallOperation.mk OpType.zeroOp [] [Extent.mk 10 4] 0) []
    (Or.inl rfl)

/-- Witness for C7: a session already on the replica stays there across
two further reads, and a primary-side mismatch with a configured replica
switches over and returns the replica outcome. -/
theorem verified_reader_two_state_machine_witness :
    (readVerifiedMany digestSample
        (VerifiedSourceFd.mk fdPrimarySample (some fdEccSample)
          SourceDesc.ecc)
        [(Extent.mk 0 1, 2), (Extent.mk 1 2, 9)]).current = SourceDesc.ecc
    ∧ ((readVerified digestSample 2
          (VerifiedSourceFd.mk fdPrimarySample (some fdEccSample)
            SourceDesc.primary) (Extent.mk 0 1)).1.current = SourceDesc.ecc
        ∧ (readVerified digestSample 2
            (VerifiedSourceFd.mk fdPrimarySample (some fdEccSample)
              SourceDesc.primary) (Extent.mk 0 1)).2
          = (if digestSample (readRange fdEccSample (Extent.mk 0 1)) = 2
              then Except.ok (readRange fdEccSample (Extent.mk 0 1))
              else Except.error ErrorCode.integrityError)) :=
  ⟨(verified_reader_two_state_machine digestSample 2
      (VerifiedSourceFd.mk fdPrimarySample (some fdEccSample)
        SourceDesc.ecc)
      (Extent.mk 0 1) fdEccSample
      [(Extent.mk 0 1, 2), (Extent.mk 1 2, 9)]).1 rfl,
   (verified_reader_two_state_machine digestSample 2
      (VerifiedSourceFd.mk fdPrimarySample (some fdEccSample)
        SourceDesc.primary)
      (Extent.mk 0 1) fdEccSample []).2 rfl rfl (by decide)⟩

/-- Witness for C8: the invariant at a mid-operation prefix of the sample
plan's trace. -/
theorem checkpoint_never_ahead_witness :
    ((opsSample.take
        (ckptOf 0 ((runTrace origSample patchSample opsSample 0).take 2)
          - 0)).flatMap (entriesOf origSample patchSample))
      <+: sinkOf ((runTrace origSample patchSample opsSample 0).take 2) :=
  checkpoint_never_ahead origSample patchSample opsSample 0 2

/-- Witness for C9: a one-operation plan whose single self-overlapping
source-copy entry was already fully emitted before the crash. -/
theorem resume_idempotent_witness :
    mergeView ((opsSample.take 0).flatMap (entriesOf origSample patchSample)
        ++ ([CowEntry.copy 0 1]
          ++ runFrom origSample patchSample opsSample 0)) 1
      = mergeView (runFrom origSample patchSample opsSample 0) 1 :=
  resume_idempotent origSample patchSample opsSample 0 Nat.one_pos
    [CowEntry.copy 0 1] (by decide) 1

end UpdateEngine
